import Mathlib

/-!
Verification of the immoscout-project pipeline against its specification.

The development shallowly embeds the Python sources:
  * `src/app/app.py` / `src/backend/app.py` — the Flask `/predict` handler
    (input validation, one-hot feature construction, model inference);
  * `src/model/model.py` — the MongoDB trainer (cleaning, model selection by
    minimal MAE, artifact persistence);
  * `src/model.py` — the CSV trainer variant (model selection by maximal R²);
  * `src/immo_spider/immo_spider/spiders/immoscout_spider.py` — the Scrapy
    collector (field cleaning, per-listing record emission, run semantics);
  * `src/model/save.py` / `src/backend/app.py` — blob-name versioning.

Machine floats are modelled by `ℚ`; Python strings by Lean `String`
(in Lean 4.14 a `String` wraps a `List Char`, matching Python's
sequence-of-characters view for the ASCII data handled here).
-/

/-! ### Python string and number primitives -/

/-- Value of an ASCII digit character. -/
def digitVal (c : Char) : Nat := c.toNat - 48

/-- Python `int(s)` on a string of decimal digits.  Returns `none` when the
list is empty or contains a non-digit (Python would raise `ValueError`). -/
def pyInt? (l : List Char) : Option Nat :=
  if !l.isEmpty && l.all Char.isDigit then
    some (l.foldl (fun n c => 10 * n + digitVal c) 0)
  else
    none

/-- Python `str.isdigit()`: true iff the string is non-empty and every
character is a digit. -/
def isdigitStr (s : String) : Bool :=
  !s.data.isEmpty && s.data.all Char.isDigit

/-- Python `int(s)` applied to a string already checked with `isdigit()`. -/
def pyIntStr (s : String) : Nat :=
  s.data.foldl (fun n c => 10 * n + digitVal c) 0

/-- Python `float(s)` on a finite decimal literal: optional sign, an integer
part and an optional fractional part, surrounding whitespace stripped.
(Exponent notation and `inf`/`nan` are not modelled; they play no role in the
claims, whose hypotheses constrain the parsed value.)  `none` models the
`ValueError` that `float()` raises on unparsable input. -/
def pyFloat? (s : String) : Option ℚ :=
  let l := ((s.data.dropWhile Char.isWhitespace).reverse.dropWhile Char.isWhitespace).reverse
  let sign : ℚ × List Char :=
    match l with
    | '-' :: t => (-1, t)
    | '+' :: t => (1, t)
    | _ => (1, l)
  let ip := sign.2.takeWhile Char.isDigit
  let rest := sign.2.dropWhile Char.isDigit
  let ipVal : ℚ := (ip.foldl (fun n c => 10 * n + digitVal c) 0 : Nat)
  match rest with
  | [] => if ip.isEmpty then none else some (sign.1 * ipVal)
  | '.' :: fp =>
      if fp.all Char.isDigit && (!ip.isEmpty || !fp.isEmpty) then
        some (sign.1 * (ipVal +
          ((fp.foldl (fun n c => 10 * n + digitVal c) 0 : Nat) : ℚ) / 10 ^ fp.length))
      else none
  | _ => none

/-! ### The `/predict` handler (src/app/app.py lines 53–99; the handler in
src/backend/app.py lines 90–134 is identical up to the message strings). -/

/-- The postal-code directory `plz_ort`: postal code (int key) to place name,
as loaded from `data/plz_ort.csv`. -/
abbrev Dir := List (Nat × String)

/-- Python `postal_code in plz_ort`: dictionary-key membership. -/
def hasPlz (d : Dir) (pc : Nat) : Bool := d.any (fun p => p.1 == pc)

/-- The loaded model: `feature_names_in_` is the ordered expected column
list; `predictFn` stands for `model.predict` on a single feature row
(an opaque fitted scikit-learn estimator, total on well-formed rows). -/
structure PModel where
  feature_names_in_ : List String
  predictFn : List ℚ → ℚ

/-- The three raw form fields of a `POST /predict` request. -/
structure Form where
  rooms : String
  size : String
  postal_code : String

/-- The rendered response context: `prediction` and `error_message` as passed
to `render_template`. -/
structure Response where
  prediction : Option String
  error_message : Option String
deriving DecidableEq

/-- The single-row DataFrame after `pd.get_dummies`: columns
`rooms`, `size`, and the one indicator column `plz_<str(postal_code)>`
holding 1 (app.py lines 71–78). -/
def inputCols (rooms size : ℚ) (pc : Nat) : List (String × ℚ) :=
  [("rooms", rooms), ("size", size), ("plz_" ++ toString pc, 1)]

/-- Column lookup with the fill-in of app.py lines 81–83: a model column
missing from the input frame is added with value 0. -/
def lookupCol (cols : List (String × ℚ)) (c : String) : ℚ :=
  match cols.find? (fun p => p.1 == c) with
  | some p => p.2
  | none => 0

/-- The reindexing `input_df = input_df[model.feature_names_in_]`
(app.py line 84): the feature row, one value per expected column, in the
model's expected order. -/
def buildFeatures (fns : List String) (rooms size : ℚ) (pc : Nat) : List ℚ :=
  fns.map (lookupCol (inputCols rooms size pc))

/-- Two-decimal rendering of Python's `f"{x:.2f}"` (half-up rounding on ℚ;
the claims never inspect the digits). -/
def fmt2 (q : ℚ) : String :=
  let c : Int := ((q * 100 + 1 / 2 : ℚ)).floor
  toString (c.ediv 100) ++ "." ++
    (let r := (c.emod 100).toNat
     if r < 10 then "0" ++ toString r else toString r)

/-- The body of the `try:` block of `predict` (app.py lines 57–88), as an
`Except`: `.error` is a raised-and-caught exception's message, `.ok` the
prediction string bound on success. -/
def handlerBody (plz_ort : Dir) (m : PModel) (f : Form) : Except String String :=
  match pyFloat? f.rooms with
  | none => .error "could not convert string to float"
  | some rooms =>
    match pyFloat? f.size with
    | none => .error "could not convert string to float"
    | some size =>
      if !isdigitStr f.postal_code then
        .error "Die Postleitzahl muss eine Zahl sein."
      else
        let postal_code := pyIntStr f.postal_code
        if rooms ≤ 0 ∨ size ≤ 0 ∨ !hasPlz plz_ort postal_code then
          .error "Ungültige Eingabewerte."
        else
          .ok ("Vorhergesagter Preis: CHF " ++
            fmt2 (m.predictFn (buildFeatures m.feature_names_in_ rooms size postal_code)))

/-- The `predict` route handler (app.py lines 53–99): the `try/except`
converts any raised exception into `error_message`, and the handler always
returns a rendered page with the `prediction` / `error_message` context. -/
def predict (plz_ort : Dir) (m : PModel) (f : Form) : Response :=
  match handlerBody plz_ort m f with
  | .ok p => ⟨some p, none⟩
  | .error e => ⟨none, some ("Fehler: " ++ e)⟩

example : pyFloat? "3" = some 3 := by simp [pyFloat?, digitVal]
example : pyFloat? "3.5" = some (7/2) := by simp [pyFloat?, digitVal]; norm_num
example : pyFloat? "-2.25" = some (-9/4) := by simp [pyFloat?, digitVal]; norm_num
example : pyFloat? "abc" = none := by simp [pyFloat?, digitVal]
example : isdigitStr "8000" = true := by decide
example : pyIntStr "8000" = 8000 := by decide

/-! ### Claims C1 and C2: the validation/prediction contract of `/predict` -/

/-- A concrete postal-code directory, model, and request used as witnesses. -/
def dir0 : Dir := [(8000, "Zürich")]

def model0 : PModel := ⟨["rooms", "size", "plz_8000"], fun v => v.sum⟩

def form0 : Form := ⟨"3", "80", "8000"⟩

def formBad : Form := ⟨"0", "80", "8000"⟩

/-- C1: a POST /predict request whose rooms and size fields parse to numbers
with rooms > 0 and size > 0 and whose postal-code field is a digit string
whose value is a key of the postal-code directory renders a page whose
`prediction` is the formatted two-decimal price string with the currency
label and whose `error_message` is empty. -/
theorem predict_valid_yields_price (d : Dir) (m : PModel) (f : Form) (r s : ℚ)
    (hr : pyFloat? f.rooms = some r) (hs : pyFloat? f.size = some s)
    (hr0 : 0 < r) (hs0 : 0 < s)
    (hdig : isdigitStr f.postal_code = true)
    (hmem : hasPlz d (pyIntStr f.postal_code) = true) :
    predict d m f =
      ⟨some ("Vorhergesagter Preis: CHF " ++
          fmt2 (m.predictFn (buildFeatures m.feature_names_in_ r s (pyIntStr f.postal_code)))),
        none⟩ := by
  unfold predict handlerBody
  rw [hr, hs, hdig]
  have hcond : ¬(r ≤ 0 ∨ s ≤ 0 ∨ (!hasPlz d (pyIntStr f.postal_code)) = true) := by
    simp [hmem]
    exact ⟨hr0, hs0⟩
  simp only [Bool.not_true, if_neg hcond]
  rfl

/-- Witness for C1 at the concrete request rooms=3, size=80, postal_code=8000
against the directory {8000 ↦ Zürich}. -/
theorem predict_valid_yields_price_witness :
    predict dir0 model0 form0 =
      ⟨some ("Vorhergesagter Preis: CHF " ++
          fmt2 (model0.predictFn (buildFeatures model0.feature_names_in_ 3 80 (pyIntStr "8000")))),
        none⟩ :=
  predict_valid_yields_price dir0 model0 form0 3 80
    (by simp [form0, pyFloat?, digitVal]) (by simp [form0, pyFloat?, digitVal])
    (by norm_num) (by norm_num) (by decide) (by decide)

/-- C2: a request with rooms ≤ 0, size ≤ 0, a non-digit postal-code field, or
a postal code absent from the directory renders a page with a user-facing
error string and no prediction; and on every input whatsoever the handler
returns a normal page (the prediction/error alternative), every exception
being caught inside the handler. -/
theorem predict_catches_errors (d : Dir) (m : PModel) (f : Form) :
    (((∃ p, (predict d m f).prediction = some p) ∧ (predict d m f).error_message = none) ∨
      ((predict d m f).prediction = none ∧ ∃ e, (predict d m f).error_message = some e)) ∧
    (∀ r s, pyFloat? f.rooms = some r → pyFloat? f.size = some s →
      (r ≤ 0 ∨ s ≤ 0 ∨ isdigitStr f.postal_code = false ∨
        hasPlz d (pyIntStr f.postal_code) = false) →
      (predict d m f).prediction = none ∧ ∃ e, (predict d m f).error_message = some e) := by
  constructor
  · unfold predict
    cases h : handlerBody d m f with
    | ok p => exact Or.inl ⟨⟨p, rfl⟩, rfl⟩
    | error e => exact Or.inr ⟨rfl, ⟨"Fehler: " ++ e, rfl⟩⟩
  · intro r s hr hs hbad
    unfold predict handlerBody
    rw [hr, hs]
    by_cases hdig : isdigitStr f.postal_code = true
    · have hcond : r ≤ 0 ∨ s ≤ 0 ∨ (!hasPlz d (pyIntStr f.postal_code)) = true := by
        rcases hbad with h | h | h | h
        · exact Or.inl h
        · exact Or.inr (Or.inl h)
        · rw [hdig] at h; cases h
        · exact Or.inr (Or.inr (by rw [h]; rfl))
      rw [hdig]
      simp only [Bool.not_true, if_pos hcond]
      exact ⟨rfl, _, rfl⟩
    · rw [Bool.not_eq_true] at hdig
      rw [hdig]
      exact ⟨rfl, _, rfl⟩

/-- Witness for C2 at the concrete invalid request rooms=0, size=80,
postal_code=8000: an error page with no prediction. -/
theorem predict_catches_errors_witness :
    (predict dir0 model0 formBad).prediction = none ∧
      ∃ e, (predict dir0 model0 formBad).error_message = some e :=
  (predict_catches_errors dir0 model0 formBad).2 0 80
    (by simp [formBad, pyFloat?, digitVal]) (by simp [formBad, pyFloat?, digitVal])
    (Or.inl le_rfl)

/-! ### Claim C4: one-hot alignment of the inference feature vector -/

/-- Python `str.startswith`, over character lists. -/
def startswith (p s : List Char) : Bool :=
  match p, s with
  | [], _ => true
  | _ :: _, [] => false
  | a :: ps, c :: cs => a == c && startswith ps cs

lemma startswith_self_append (p t : List Char) : startswith p (p ++ t) = true := by
  induction p with
  | nil => rfl
  | cons a ps ih => simp [startswith, ih]

/-- A column name beginning with `plz_` has the evident shape. -/
lemma startswith_plz_shape (c : String) (h : startswith "plz_".data c.data = true) :
    ∃ t, c.data = 'p' :: 'l' :: 'z' :: '_' :: t := by
  rcases hc : c.data with _ | ⟨a, l⟩
  · rw [hc] at h; simp [startswith] at h
  rcases l with _ | ⟨b, l⟩
  · rw [hc] at h; simp [startswith] at h
  rcases l with _ | ⟨e, l⟩
  · rw [hc] at h; simp [startswith] at h
  rcases l with _ | ⟨g, l⟩
  · rw [hc] at h; simp [startswith] at h
  rw [hc] at h
  simp [startswith] at h
  obtain ⟨h1, h2, h3, h4⟩ := h
  exact ⟨l, by rw [h1, h2, h3, h4]⟩

lemma plz_col_ne_rooms (c : String) (h : startswith "plz_".data c.data = true) :
    c ≠ "rooms" := by
  obtain ⟨t, ht⟩ := startswith_plz_shape c h
  intro he
  rw [he] at ht
  simp at ht

lemma plz_col_ne_size (c : String) (h : startswith "plz_".data c.data = true) :
    c ≠ "size" := by
  obtain ⟨t, ht⟩ := startswith_plz_shape c h
  intro he
  rw [he] at ht
  simp at ht

/-- The indicator column of the submitted postal code carries value 1. -/
lemma lookupCol_target (rooms size : ℚ) (pc : Nat) :
    lookupCol (inputCols rooms size pc) ("plz_" ++ toString pc) = 1 := by
  have h1 : (("rooms" : String) == "plz_" ++ toString pc) = false := by
    rw [beq_eq_false_iff_ne]
    intro h
    have := congrArg String.data h
    simp [String.data_append] at this
  have h2 : (("size" : String) == "plz_" ++ toString pc) = false := by
    rw [beq_eq_false_iff_ne]
    intro h
    have := congrArg String.data h
    simp [String.data_append] at this
  simp [lookupCol, inputCols, List.find?, h1, h2]

/-- Any other `plz_`-indicator column carries value 0. -/
lemma lookupCol_other_plz (rooms size : ℚ) (pc : Nat) (c : String)
    (hp : startswith "plz_".data c.data = true) (hne : c ≠ "plz_" ++ toString pc) :
    lookupCol (inputCols rooms size pc) c = 0 := by
  have h1 : (("rooms" : String) == c) = false := by
    rw [beq_eq_false_iff_ne]
    exact fun h => plz_col_ne_rooms c hp h.symm
  have h2 : (("size" : String) == c) = false := by
    rw [beq_eq_false_iff_ne]
    exact fun h => plz_col_ne_size c hp h.symm
  have h3 : (("plz_" ++ toString pc : String) == c) = false := by
    rw [beq_eq_false_iff_ne]
    exact fun h => hne h.symm
  simp [lookupCol, inputCols, List.find?, h1, h2, h3]

/-- No record of the indicator filter survives when the submitted postal code
never occurs among the columns. -/
lemma filter_plz_nil (rooms size : ℚ) (pc : Nat) (fns : List String)
    (hnm : ("plz_" ++ toString pc) ∉ fns) :
    (fns.map (fun c => (c, lookupCol (inputCols rooms size pc) c))).filter
        (fun p => startswith "plz_".data p.1.data && !(p.2 == 0)) = [] := by
  induction fns with
  | nil => rfl
  | cons c t ih =>
    have hct : ("plz_" ++ toString pc) ∉ t := fun h => hnm (List.mem_cons_of_mem _ h)
    have hcne : c ≠ "plz_" ++ toString pc := fun h => hnm (h ▸ List.mem_cons_self _ _)
    by_cases hp : startswith "plz_".data c.data = true
    · have h0 := lookupCol_other_plz rooms size pc c hp hcne
      simp [List.filter, h0, ih hct]
    · rw [Bool.not_eq_true] at hp
      simp [List.filter, hp, ih hct]

/-- The indicator filter keeps exactly the submitted postal code's column
when that column occurs among distinct column names. -/
lemma filter_plz_single (rooms size : ℚ) (pc : Nat) (fns : List String)
    (hnd : fns.Nodup) (hm : ("plz_" ++ toString pc) ∈ fns) :
    (fns.map (fun c => (c, lookupCol (inputCols rooms size pc) c))).filter
        (fun p => startswith "plz_".data p.1.data && !(p.2 == 0)) =
      [("plz_" ++ toString pc, 1)] := by
  induction fns with
  | nil => cases hm
  | cons c t ih =>
    by_cases hc : c = "plz_" ++ toString pc
    · subst hc
      have hnt : ("plz_" ++ toString pc) ∉ t := (List.nodup_cons.1 hnd).1
      have h1 := lookupCol_target rooms size pc
      have hpz : startswith "plz_".data ("plz_" ++ toString pc).data = true := by
        show startswith "plz_".data ("plz_".data ++ (toString pc).data) = true
        exact startswith_self_append _ _
      simp only [List.map_cons, List.filter_cons, h1, hpz]
      simp [filter_plz_nil rooms size pc t hnt]
    · have hct : ("plz_" ++ toString pc) ∈ t := by
        rcases List.mem_cons.1 hm with h | h
        · exact absurd h.symm hc
        · exact h
      have htail := ih (List.nodup_cons.1 hnd).2 hct
      by_cases hp : startswith "plz_".data c.data = true
      · have h0 := lookupCol_other_plz rooms size pc c hp hc
        simp only [List.map_cons, List.filter_cons, h0, hp]
        simpa using htail
      · rw [Bool.not_eq_true] at hp
        simp only [List.map_cons, List.filter_cons, hp]
        simpa using htail

/-- C4: the inference feature row has exactly the model's expected columns in
the model's expected order; if the submitted postal code has an indicator
column among them, exactly that one indicator holds 1 and every other
indicator holds 0; if it has none, every indicator column holds 0. -/
theorem buildFeatures_one_hot (fns : List String) (rooms size : ℚ) (pc : Nat)
    (hnd : fns.Nodup) :
    ((fns.zip (buildFeatures fns rooms size pc)).map Prod.fst = fns) ∧
    (("plz_" ++ toString pc) ∈ fns →
      (fns.zip (buildFeatures fns rooms size pc)).filter
          (fun p => startswith "plz_".data p.1.data && !(p.2 == 0)) =
        [("plz_" ++ toString pc, 1)]) ∧
    (("plz_" ++ toString pc) ∉ fns →
      ∀ p ∈ fns.zip (buildFeatures fns rooms size pc),
        startswith "plz_".data p.1.data = true → p.2 = 0) := by
  have hzip : fns.zip (buildFeatures fns rooms size pc) =
      fns.map (fun c => (c, lookupCol (inputCols rooms size pc) c)) := by
    have h := List.zip_map' (id : String → String) (lookupCol (inputCols rooms size pc)) fns
    simpa [buildFeatures] using h
  refine ⟨?_, ?_, ?_⟩
  · rw [hzip, List.map_map]
    simp [Function.comp_def]
  · intro hm
    rw [hzip]
    exact filter_plz_single rooms size pc fns hnd hm
  · intro hnm p hp hpz
    rw [hzip] at hp
    obtain ⟨c, hc, rfl⟩ := List.mem_map.1 hp
    exact lookupCol_other_plz rooms size pc c hpz (fun h => hnm (h ▸ hc))

/-- Witness for C4 at the concrete columns ["rooms", "size", "plz_8000"] with
rooms=3, size=80 and the trained postal code 8000. -/
theorem buildFeatures_one_hot_witness :
    ((["rooms", "size", "plz_8000"].zip (buildFeatures ["rooms", "size", "plz_8000"] 3 80 8000)).map
        Prod.fst = ["rooms", "size", "plz_8000"]) ∧
    (("plz_" ++ toString 8000) ∈ ["rooms", "size", "plz_8000"] →
      (["rooms", "size", "plz_8000"].zip (buildFeatures ["rooms", "size", "plz_8000"] 3 80 8000)).filter
          (fun p => startswith "plz_".data p.1.data && !(p.2 == 0)) =
        [("plz_" ++ toString 8000, 1)]) ∧
    (("plz_" ++ toString 8000) ∉ ["rooms", "size", "plz_8000"] →
      ∀ p ∈ ["rooms", "size", "plz_8000"].zip (buildFeatures ["rooms", "size", "plz_8000"] 3 80 8000),
        startswith "plz_".data p.1.data = true → p.2 = 0) :=
  buildFeatures_one_hot ["rooms", "size", "plz_8000"] 3 80 8000 (by decide)

/-! ### Claim C3: trainer model selection
A fitted candidate model is represented by its name and its predictions on
the test split — all the selection logic of both trainers reads from a
candidate. -/

abbrev Candidate := String × List ℚ

/-- sklearn `mean_absolute_error(y_test, y_pred)`. -/
def mae (ytest ypred : List ℚ) : ℚ :=
  (List.zipWith (fun a b => |a - b|) ytest ypred).sum / ytest.length

/-- sklearn `r2_score(y_test, y_pred)`. -/
def r2_score (ytest ypred : List ℚ) : ℚ :=
  let ymean := ytest.sum / ytest.length
  1 - (List.zipWith (fun a b => (a - b) ^ 2) ytest ypred).sum /
      (ytest.map (fun a => (a - ymean) ^ 2)).sum

/-- Loop body of src/model/model.py lines 108–124: keep the running best on
strictly smaller MAE.  The initial `best_mae = float("inf")` is modelled by
`none`, which any first candidate replaces. -/
def maeStep (ytest : List ℚ) (acc : Option (Candidate × ℚ)) (c : Candidate) :
    Option (Candidate × ℚ) :=
  match acc with
  | none => some (c, mae ytest c.2)
  | some (b, bm) => if mae ytest c.2 < bm then some (c, mae ytest c.2) else some (b, bm)

/-- The candidate whose fitted model src/model/model.py persists with
`pickle.dump(best_model, f)` (lines 128–130). -/
def selectBestMAE (ytest : List ℚ) (cands : List Candidate) : Option Candidate :=
  (cands.foldl (maeStep ytest) none).map Prod.fst

/-- Loop body of src/model.py lines 50–84: keep the running best on strictly
larger R² (`if r2 > best_score`), `best_score = -inf` modelled by `none`.
`joblib.dump` runs inside the loop on every improvement, so the file left on
disk is the final running best. -/
def r2Step (ytest : List ℚ) (acc : Option (Candidate × ℚ)) (c : Candidate) :
    Option (Candidate × ℚ) :=
  match acc with
  | none => some (c, r2_score ytest c.2)
  | some (b, bs) =>
    if r2_score ytest c.2 > bs then some (c, r2_score ytest c.2) else some (b, bs)

/-- The candidate whose fitted model src/model.py leaves in
`best_model.joblib`. -/
def selectBestR2 (ytest : List ℚ) (cands : List Candidate) : Option Candidate :=
  (cands.foldl (r2Step ytest) none).map Prod.fst

lemma maeStep_foldl_spec (ytest : List ℚ) (cands : List Candidate) :
    ∀ b : Candidate,
      ∃ r : Candidate,
        cands.foldl (maeStep ytest) (some (b, mae ytest b.2)) = some (r, mae ytest r.2) ∧
        (r = b ∨ r ∈ cands) ∧ mae ytest r.2 ≤ mae ytest b.2 ∧
        ∀ c ∈ cands, mae ytest r.2 ≤ mae ytest c.2 := by
  induction cands with
  | nil => exact fun b => ⟨b, rfl, Or.inl rfl, le_refl _, by simp⟩
  | cons c t ih =>
    intro b
    by_cases h : mae ytest c.2 < mae ytest b.2
    · obtain ⟨r, h1, h2, h3, h4⟩ := ih c
      refine ⟨r, ?_, ?_, h3.trans h.le, ?_⟩
      · rw [List.foldl_cons,
          show maeStep ytest (some (b, mae ytest b.2)) c = some (c, mae ytest c.2) from by
            simp [maeStep, h]]
        exact h1
      · rcases h2 with rfl | hr
        · exact Or.inr (List.mem_cons_self _ _)
        · exact Or.inr (List.mem_cons_of_mem _ hr)
      · intro x hx
        rcases List.mem_cons.1 hx with rfl | hxt
        · exact h3
        · exact h4 x hxt
    · obtain ⟨r, h1, h2, h3, h4⟩ := ih b
      refine ⟨r, ?_, ?_, h3, ?_⟩
      · rw [List.foldl_cons,
          show maeStep ytest (some (b, mae ytest b.2)) c = some (b, mae ytest b.2) from by
            simp [maeStep, h]]
        exact h1
      · rcases h2 with rfl | hr
        · exact Or.inl rfl
        · exact Or.inr (List.mem_cons_of_mem _ hr)
      · intro x hx
        rcases List.mem_cons.1 hx with rfl | hxt
        · exact h3.trans (not_lt.1 h)
        · exact h4 x hxt

lemma r2Step_foldl_spec (ytest : List ℚ) (cands : List Candidate) :
    ∀ b : Candidate,
      ∃ r : Candidate,
        cands.foldl (r2Step ytest) (some (b, r2_score ytest b.2)) =
          some (r, r2_score ytest r.2) ∧
        (r = b ∨ r ∈ cands) ∧ r2_score ytest b.2 ≤ r2_score ytest r.2 ∧
        ∀ c ∈ cands, r2_score ytest c.2 ≤ r2_score ytest r.2 := by
  induction cands with
  | nil => exact fun b => ⟨b, rfl, Or.inl rfl, le_refl _, by simp⟩
  | cons c t ih =>
    intro b
    by_cases h : r2_score ytest c.2 > r2_score ytest b.2
    · obtain ⟨r, h1, h2, h3, h4⟩ := ih c
      refine ⟨r, ?_, ?_, h.le.trans h3, ?_⟩
      · rw [List.foldl_cons,
          show r2Step ytest (some (b, r2_score ytest b.2)) c = some (c, r2_score ytest c.2) from by
            simp [r2Step, h]]
        exact h1
      · rcases h2 with rfl | hr
        · exact Or.inr (List.mem_cons_self _ _)
        · exact Or.inr (List.mem_cons_of_mem _ hr)
      · intro x hx
        rcases List.mem_cons.1 hx with rfl | hxt
        · exact h3
        · exact h4 x hxt
    · obtain ⟨r, h1, h2, h3, h4⟩ := ih b
      refine ⟨r, ?_, ?_, h3, ?_⟩
      · rw [List.foldl_cons,
          show r2Step ytest (some (b, r2_score ytest b.2)) c = some (b, r2_score ytest b.2) from by
            simp [r2Step, h]]
        exact h1
      · rcases h2 with rfl | hr
        · exact Or.inl rfl
        · exact Or.inr (List.mem_cons_of_mem _ hr)
      · intro x hx
        rcases List.mem_cons.1 hx with rfl | hxt
        · exact (not_lt.1 h).trans h3
        · exact h4 x hxt

/-- C3 (amended): over any non-empty candidate list, the MongoDB trainer
(src/model/model.py) persists a candidate of minimal test-split MAE, while
the CSV trainer (src/model.py) persists a candidate of maximal test-split R²
— not of minimal MAE. -/
theorem trainer_selection_criteria :
    (∀ (ytest : List ℚ) (cands : List Candidate), cands ≠ [] →
      ∃ best, selectBestMAE ytest cands = some best ∧ best ∈ cands ∧
        ∀ c ∈ cands, mae ytest best.2 ≤ mae ytest c.2) ∧
    (∀ (ytest : List ℚ) (cands : List Candidate), cands ≠ [] →
      ∃ best, selectBestR2 ytest cands = some best ∧ best ∈ cands ∧
        ∀ c ∈ cands, r2_score ytest c.2 ≤ r2_score ytest best.2) := by
  constructor
  · intro ytest cands hne
    rcases cands with _ | ⟨c, t⟩
    · exact absurd rfl hne
    obtain ⟨r, h1, h2, h3, h4⟩ := maeStep_foldl_spec ytest t c
    refine ⟨r, ?_, ?_, ?_⟩
    · rw [selectBestMAE, List.foldl_cons,
        show maeStep ytest none c = some (c, mae ytest c.2) from rfl, h1]
      rfl
    · rcases h2 with rfl | hr
      · exact List.mem_cons_self _ _
      · exact List.mem_cons_of_mem _ hr
    · intro x hx
      rcases List.mem_cons.1 hx with rfl | hxt
      · exact h3
      · exact h4 x hxt
  · intro ytest cands hne
    rcases cands with _ | ⟨c, t⟩
    · exact absurd rfl hne
    obtain ⟨r, h1, h2, h3, h4⟩ := r2Step_foldl_spec ytest t c
    refine ⟨r, ?_, ?_, ?_⟩
    · rw [selectBestR2, List.foldl_cons,
        show r2Step ytest none c = some (c, r2_score ytest c.2) from rfl, h1]
      rfl
    · rcases h2 with rfl | hr
      · exact List.mem_cons_self _ _
      · exact List.mem_cons_of_mem _ hr
    · intro x hx
      rcases List.mem_cons.1 hx with rfl | hxt
      · exact h3
      · exact h4 x hxt

/-- Witness for C3 on the concrete test split [0, 0, 6] and candidates
A (predictions [0, 0, 2]) and B (predictions [-3/2, -3/2, 9/2]). -/
theorem trainer_selection_criteria_witness :
    (∃ best, selectBestMAE [0, 0, 6] [("A", [0, 0, 2]), ("B", [-3/2, -3/2, 9/2])] = some best ∧
        best ∈ [("A", [0, 0, 2]), ("B", [-3/2, -3/2, 9/2])] ∧
        ∀ c ∈ [("A", [0, 0, 2]), ("B", [-3/2, -3/2, 9/2])],
          mae [0, 0, 6] best.2 ≤ mae [0, 0, 6] c.2) ∧
    (∃ best, selectBestR2 [0, 0, 6] [("A", [0, 0, 2]), ("B", [-3/2, -3/2, 9/2])] = some best ∧
        best ∈ [("A", [0, 0, 2]), ("B", [-3/2, -3/2, 9/2])] ∧
        ∀ c ∈ [("A", [0, 0, 2]), ("B", [-3/2, -3/2, 9/2])],
          r2_score [0, 0, 6] c.2 ≤ r2_score [0, 0, 6] best.2) :=
  ⟨trainer_selection_criteria.1 [0, 0, 6] _ (by simp),
   trainer_selection_criteria.2 [0, 0, 6] _ (by simp)⟩

/-- C3 counterexample: at test split [0, 0, 6] the CSV trainer persists
candidate B (larger R²) although candidate A has strictly smaller MAE, so
"the persisted artifact has minimal MAE" is false for src/model.py. -/
theorem csv_trainer_not_min_mae :
    selectBestR2 [0, 0, 6] [("A", [0, 0, 2]), ("B", [-3/2, -3/2, 9/2])] =
      some ("B", [-3/2, -3/2, 9/2]) ∧
    mae [0, 0, 6] [0, 0, 2] < mae [0, 0, 6] [-3/2, -3/2, 9/2] := by
  have hA : r2_score [0, 0, 6] [0, 0, 2] = 1 / 3 := by
    rw [r2_score]
    norm_num
  have hB : r2_score [0, 0, 6] [-3/2, -3/2, 9/2] = 23 / 32 := by
    rw [r2_score]
    norm_num
  have hmA : mae [0, 0, 6] [0, 0, 2] = 4 / 3 := by
    rw [mae]
    simp only [List.zipWith_cons_cons, List.zipWith_nil_right, List.sum_cons, List.sum_nil]
    rw [show |(0 : ℚ) - 0| = 0 from by simp, show |(6 : ℚ) - 2| = 4 from by norm_num]
    norm_num
  have hmB : mae [0, 0, 6] [-3/2, -3/2, 9/2] = 3 / 2 := by
    rw [mae]
    simp only [List.zipWith_cons_cons, List.zipWith_nil_right, List.sum_cons, List.sum_nil]
    rw [show |(0 : ℚ) - -3 / 2| = 3 / 2 from by norm_num,
      show |(6 : ℚ) - 9 / 2| = 3 / 2 from by norm_num]
    norm_num
  refine ⟨?_, ?_⟩
  · rw [selectBestR2, List.foldl_cons, List.foldl_cons,
      show r2Step [0, 0, 6] none ("A", [0, 0, 2]) =
        some (("A", [0, 0, 2]), r2_score [0, 0, 6] [0, 0, 2]) from rfl]
    rw [show r2Step [0, 0, 6] (some (("A", [0, 0, 2]), r2_score [0, 0, 6] [0, 0, 2]))
          ("B", [-3/2, -3/2, 9/2]) =
        some (("B", [-3/2, -3/2, 9/2]), r2_score [0, 0, 6] [-3/2, -3/2, 9/2]) from by
      simp only [r2Step]
      rw [if_pos (by rw [hA, hB]; norm_num)]]
    rfl
  · rw [hmA, hmB]
    norm_num

/-! ### Claims C5 and C7: trainer cleaning and the empty-data paths
(src/model/model.py lines 66–89 and 128–130). -/

/-- A raw record as retrieved from the `listings` collection, after the
column drops of lines 70–71 and the numeric coercion of lines 73–75: the
spider stores numbers or nulls in rooms/size/price, so `pd.to_numeric(...,
errors="coerce")` maps a stored number to itself and a null to NaN (both
modelled by `Option ℚ`); `postal_code` is a stored string or a null. -/
structure TrainRecord where
  rooms : Option ℚ
  size : Option ℚ
  price : Option ℚ
  postal_code : Option String
deriving DecidableEq

/-- `df["postal_code"] = df["postal_code"].astype(str)` (line 76): pandas
renders a missing value (`None` in an object column) as the string "None",
a non-null value as itself. -/
def pcStr : Option String → String
  | some s => s
  | none => "None"

/-- A record that survived `df.dropna(subset=["price", "rooms", "size",
"postal_code"])` (line 78). -/
structure CleanRecord where
  rooms : ℚ
  size : ℚ
  price : ℚ
  postal_code : String
deriving DecidableEq

/-- Lines 73–78 of src/model/model.py in order: numeric coercion, then
`astype(str)` on postal_code, then `dropna`.  Because `astype(str)` runs
before `dropna`, the postal-code column holds no nulls when `dropna` runs,
so only the three numeric fields can disqualify a record. -/
def cleanRecords (data : List TrainRecord) : List CleanRecord :=
  data.filterMap (fun r =>
    match r.price, r.rooms, r.size with
    | some p, some a, some b => some ⟨a, b, p, pcStr r.postal_code⟩
    | _, _, _ => none)

/-- Outcome of one trainer run of src/model/model.py. -/
inductive TrainResult where
  | crash (msg : String)
  | aborted
  | artifact (cleaned : List CleanRecord)
deriving DecidableEq

/-- The trainer driver: with zero retrieved records, `pd.DataFrame([])` has
no columns, so `df["price"]` at line 73 raises an uncaught `KeyError`; with
records present (the spider always stores all seven keys, so the columns
exist), cleaning runs, the `X.shape[0] == 0` check of lines 86–89 exits with
status 1 before any training, and otherwise the run trains on the cleaned
records and `pickle.dump`s the best model (lines 128–130), here recorded as
`artifact` over the cleaned data it was fitted on. -/
def trainerRun (data : List TrainRecord) : TrainResult :=
  if data.isEmpty then .crash "KeyError: price"
  else
    let cleaned := cleanRecords data
    if cleaned.isEmpty then .aborted
    else .artifact cleaned

/-- C5 (failing input): a record with numeric rooms/size/price but a null
postal code survives cleaning — its postal code becomes the literal string
"None" and it goes on to one-hot encoding and training — although the claim
says every record with a null postal code is discarded. -/
theorem null_postal_code_record_survives :
    cleanRecords [⟨some 3, some 80, some 1500, none⟩] = [⟨3, 80, 1500, "None"⟩] ∧
    trainerRun [⟨some 3, some 80, some 1500, none⟩] =
      .artifact [⟨3, 80, 1500, "None"⟩] := ⟨rfl, rfl⟩

/-- C7 (failing input): a run retrieving zero records crashes with an
uncaught KeyError at `df["price"]` instead of the handled abort the claim
describes; the explicit abort fires only when at least one record was
retrieved. -/
theorem trainer_empty_retrieval_crashes :
    trainerRun [] = .crash "KeyError: price" ∧ trainerRun [] ≠ .aborted := by
  exact ⟨rfl, by simp [trainerRun]⟩

/-- The abort/artifact dichotomy that does hold: with at least one record
retrieved, the run aborts with no artifact exactly when nothing survives
cleaning, and an artifact is produced only from a non-empty cleaned set. -/
theorem trainer_abort_no_artifact (data : List TrainRecord) (hne : data ≠ []) :
    (cleanRecords data = [] → trainerRun data = .aborted) ∧
    (∀ cl, trainerRun data = .artifact cl → cleanRecords data ≠ [] ∧ cl = cleanRecords data) := by
  constructor
  · intro h
    rw [trainerRun, if_neg (by simpa using hne)]
    simp [h]
  · intro cl h
    rw [trainerRun, if_neg (by simpa using hne)] at h
    by_cases hc : (cleanRecords data).isEmpty
    · rw [if_pos hc] at h
      cases h
    · rw [if_neg hc] at h
      cases h
      exact ⟨by simpa using hc, rfl⟩

/-- Witness for the abort/artifact dichotomy at a one-record input whose
price is null (cleaned away, so the run aborts). -/
theorem trainer_abort_no_artifact_witness :
    (cleanRecords [⟨some 3, some 80, none, some "8000"⟩] = [] →
      trainerRun [⟨some 3, some 80, none, some "8000"⟩] = .aborted) ∧
    (∀ cl, trainerRun [⟨some 3, some 80, none, some "8000"⟩] = .artifact cl →
      cleanRecords [⟨some 3, some 80, none, some "8000"⟩] ≠ [] ∧
      cl = cleanRecords [⟨some 3, some 80, none, some "8000"⟩]) :=
  trainer_abort_no_artifact [⟨some 3, some 80, none, some "8000"⟩] (by simp)

/-! ### The collector (src/immo_spider/immo_spider/spiders/immoscout_spider.py)
Claims C6, C8 and C10. -/

/-- Python `str.split("-")`, over character lists. -/
def splitDash (l : List Char) : List (List Char) :=
  match l with
  | [] => [[]]
  | c :: rest =>
    if c = '-' then [] :: splitDash rest
    else
      match splitDash rest with
      | [] => [[c]]
      | h :: t => (c :: h) :: t

/-- Python `str.strip()`, over character lists. -/
def stripChars (l : List Char) : List Char :=
  ((l.dropWhile Char.isWhitespace).reverse.dropWhile Char.isWhitespace).reverse

/-- `response.url.split("-")[-1].split("?")[0]` (spider line 120). -/
def cantonOf (url : String) : String :=
  String.mk (((splitDash url.data).getLastD []).takeWhile (fun c => !(c == '?')))

/-- The first run of consecutive digits in the text, as matched by
`re.search(r"(\d+)", ...)`. -/
def firstDigitRun? (l : List Char) : Option (List Char) :=
  match l with
  | [] => none
  | c :: rest =>
    if c.isDigit then some (c :: rest.takeWhile Char.isDigit)
    else firstDigitRun? rest

/-- `clean_rooms` (spider lines 140–159): `if rooms:` is false for null and
for the empty string; otherwise the first digit run is returned as an int,
and `None` when there is none. -/
def clean_rooms (rooms : Option String) : Option Nat :=
  match rooms with
  | none => none
  | some s =>
    if s.data.isEmpty then none
    else (firstDigitRun? s.data).map (fun l => l.foldl (fun n c => 10 * n + digitVal c) 0)

/-- `clean_size` (spider lines 161–176), same cleaning as `clean_rooms`. -/
def clean_size (size : Option String) : Option Nat :=
  match size with
  | none => none
  | some s =>
    if s.data.isEmpty then none
    else (firstDigitRun? s.data).map (fun l => l.foldl (fun n c => 10 * n + digitVal c) 0)

/-- `price.replace("CHF", "")`: remove every occurrence, scanning left to
right without overlap. -/
def replaceCHF : List Char → List Char
  | 'C' :: 'H' :: 'F' :: rest => replaceCHF rest
  | c :: rest => c :: replaceCHF rest
  | [] => []

/-- `clean_price` (spider lines 178–200): strip "CHF", "’" and "–", strip
whitespace, turn "," into "." and parse as float; `None` on null/empty input
or on a failed conversion (the caught `ValueError`). -/
def clean_price (price : Option String) : Option ℚ :=
  match price with
  | none => none
  | some s =>
    if s.data.isEmpty then none
    else
      let l1 := (replaceCHF s.data).filter (fun c => !(c == '’') && !(c == '–'))
      pyFloat? (String.mk ((stripChars l1).map (fun c => if c == ',' then '.' else c)))

/-- The first position opening a window of 4 consecutive digit characters —
the match of `re.search(r"(\d{4})", ...)` is the earliest such window. -/
def win4 (l : List Char) (i : Nat) : Bool :=
  decide (i + 4 ≤ l.length) && ((l.drop i).take 4).all Char.isDigit

/-- Scan of `re.search(r"(\d{4})", ...)`: return the first window of 4
consecutive digits. -/
def find4 : List Char → Option (List Char)
  | c1 :: c2 :: c3 :: c4 :: rest =>
    if c1.isDigit && c2.isDigit && c3.isDigit && c4.isDigit then some [c1, c2, c3, c4]
    else find4 (c2 :: c3 :: c4 :: rest)
  | _ => none

/-- `extract_postal_code` (spider lines 202–216): `if location:` is false
for null and the empty string; otherwise the first 4-digit window of the
location text, `None` when there is none. -/
def extract_postal_code (location : Option String) : Option String :=
  match location with
  | none => none
  | some s => if s.data.isEmpty then none else (find4 s.data).map String.mk

/-- One scraped listing element: the four raw CSS-selected texts
(spider lines 111–116), each possibly absent. -/
structure RawListing where
  rooms : Option String
  size : Option String
  price : Option String
  location : Option String
deriving DecidableEq

/-- The document passed to `insert_one` (spider lines 122–132). -/
structure Row where
  rooms : Option Nat
  size : Option Nat
  price : Option ℚ
  location : Option String
  canton : String
  postal_code : Option String
  page : String
deriving DecidableEq

/-- The per-listing body of `parse` (spider lines 110–132): every field is
cleaned independently and the record is always inserted. -/
def parseListing (url : String) (raw : RawListing) : Row :=
  { rooms := clean_rooms raw.rooms
    size := clean_size raw.size
    price := clean_price raw.price
    location :=
      match raw.location with
      | none => none
      | some s => if s.data.isEmpty then none else some (String.mk (stripChars s.data))
    canton := cantonOf url
    postal_code := extract_postal_code raw.location
    page := url }

/-- All records inserted while parsing one page. -/
def parsePage (url : String) (listings : List RawListing) : List Row :=
  listings.map (parseListing url)

/-- One collector run over the given pages: `__init__` first clears the
`listings` collection (`delete_many({})`, spider line 69), then `parse`
inserts one record per listing element, page by page. -/
def runSpider (sink : List Row) (pages : List (String × List RawListing)) : List Row :=
  let cleared : List Row := []
  cleared ++ pages.flatMap (fun p => parsePage p.1 p.2)

/-- A concrete page and listing used in the collector theorems. -/
def url0 : String := "https://www.immoscout24.ch/de/immobilien/mieten/kanton-zuerich?pn=1"

def raw0 : RawListing :=
  ⟨some "3 Zimmer", some "80 m2", none, some "Musterweg 1, 8000 Zuerich"⟩

def page0 : String × List RawListing := (url0, [raw0])

/-- C6 counterexample: after running the collector a second time against the
same page, the page's listing is present once, not twice — `__init__` clears
the collection before every run, so re-running does not duplicate. -/
theorem collector_rerun_not_duplicated :
    (runSpider (runSpider [] [page0]) [page0]).count (parseListing url0 raw0) = 1 ∧
    ¬ (runSpider (runSpider [] [page0]) [page0]).count (parseListing url0 raw0) = 2 := by
  constructor
  · decide
  · decide

/-- C6 (amended): each run begins with `delete_many({})`, so a second run
over the same pages leaves exactly the records of a single fresh run — each
listing appears as often as it occurs in the pages of one run, never doubled.
No dedup key is applied within a run. -/
theorem runSpider_rerun_eq (sink : List Row) (pages : List (String × List RawListing)) :
    runSpider (runSpider sink pages) pages = runSpider [] pages := rfl

/-- C8: parsing a page inserts exactly one record per listing element, and
each field of a record is the cleaning of its own raw field alone — a field
whose parse fails is null in the record without affecting the other fields
or the record's insertion. -/
theorem parse_emits_one_record_per_listing (url : String) (listings : List RawListing) :
    (parsePage url listings).length = listings.length ∧
    (∀ raw ∈ listings, parseListing url raw ∈ parsePage url listings) ∧
    (∀ raw : RawListing,
      (parseListing url raw).rooms = clean_rooms raw.rooms ∧
      (parseListing url raw).size = clean_size raw.size ∧
      (parseListing url raw).price = clean_price raw.price ∧
      (parseListing url raw).postal_code = extract_postal_code raw.location) :=
  ⟨List.length_map _ _, fun _ h => List.mem_map_of_mem _ h, fun _ => ⟨rfl, rfl, rfl, rfl⟩⟩

/-- Witness for C8 at the concrete page: the record of a listing whose price
field failed to parse (null price) is still among the inserted records. -/
theorem parse_emits_one_record_per_listing_witness :
    parseListing url0 raw0 ∈ parsePage url0 [raw0] ∧ (parseListing url0 raw0).price = none :=
  ⟨(parse_emits_one_record_per_listing url0 [raw0]).2.1 raw0 (by simp), rfl⟩

/-! ### Claim C10: specification of `extract_postal_code` -/

lemma win4_false_of_short (l : List Char) (i : Nat) (h : l.length < i + 4) :
    win4 l i = false := by
  unfold win4
  rw [decide_eq_false (by omega)]
  rfl

lemma win4_succ (c : Char) (t : List Char) (j : Nat) :
    win4 (c :: t) (j + 1) = win4 t j := by
  unfold win4
  rw [List.drop_succ_cons,
    show (decide (j + 1 + 4 ≤ (c :: t).length)) = decide (j + 4 ≤ t.length) from
      decide_eq_decide.2 (by simp [List.length_cons])]

lemma win4_zero (c1 c2 c3 c4 : Char) (rest : List Char) :
    win4 (c1 :: c2 :: c3 :: c4 :: rest) 0 =
      (c1.isDigit && c2.isDigit && c3.isDigit && c4.isDigit) := by
  unfold win4
  rw [decide_eq_true (by simp [List.length_cons])]
  simp [Bool.and_assoc]

/-- The scan `find4` returns exactly the earliest 4-digit window. -/
lemma find4_spec (l : List Char) :
    (∀ w, find4 l = some w →
      ∃ i, w = (l.drop i).take 4 ∧ win4 l i = true ∧ ∀ j < i, win4 l j = false) ∧
    (find4 l = none ↔ ∀ i, win4 l i = false) := by
  induction l with
  | nil =>
    refine ⟨fun w hw => by simp [find4] at hw, ?_⟩
    simp only [find4, true_iff]
    exact fun i => win4_false_of_short [] i (by simp)
  | cons c1 t ih =>
    rcases t with _ | ⟨c2, t⟩
    · refine ⟨fun w hw => by simp [find4] at hw, ?_⟩
      simp only [find4, true_iff]
      exact fun i => win4_false_of_short _ i (by simp)
    rcases t with _ | ⟨c3, t⟩
    · refine ⟨fun w hw => by simp [find4] at hw, ?_⟩
      simp only [find4, true_iff]
      exact fun i => win4_false_of_short _ i (by simp)
    rcases t with _ | ⟨c4, rest⟩
    · refine ⟨fun w hw => by simp [find4] at hw, ?_⟩
      simp only [find4, true_iff]
      exact fun i => win4_false_of_short _ i (by simp)
    by_cases hd : (c1.isDigit && c2.isDigit && c3.isDigit && c4.isDigit) = true
    · have hf : find4 (c1 :: c2 :: c3 :: c4 :: rest) = some [c1, c2, c3, c4] := by
        simp [find4, hd]
      constructor
      · intro w hw
        rw [hf] at hw
        cases hw
        exact ⟨0, by simp, by rw [win4_zero, hd], by omega⟩
      · rw [hf]
        constructor
        · intro h; cases h
        · intro hall
          have := hall 0
          rw [win4_zero, hd] at this
          cases this
    · have hf : find4 (c1 :: c2 :: c3 :: c4 :: rest) = find4 (c2 :: c3 :: c4 :: rest) := by
        simp [find4, hd]
      have h0 : win4 (c1 :: c2 :: c3 :: c4 :: rest) 0 = false := by
        rw [win4_zero]
        exact Bool.eq_false_iff.mpr hd
      constructor
      · intro w hw
        rw [hf] at hw
        obtain ⟨i, hwi, hwin, hmin⟩ := ih.1 w hw
        refine ⟨i + 1, by rw [List.drop_succ_cons]; exact hwi, by rw [win4_succ]; exact hwin, ?_⟩
        intro j hj
        cases j with
        | zero => exact h0
        | succ k =>
          rw [win4_succ]
          exact hmin k (by omega)
      · rw [hf, ih.2]
        constructor
        · intro h i
          cases i with
          | zero => exact h0
          | succ k => rw [win4_succ]; exact h k
        · intro h i
          have := h (i + 1)
          rw [win4_succ] at this
          exact this

/-- C10: whenever `extract_postal_code` returns a value, the value is the
earliest window of 4 consecutive digit characters of the location text
(hence exactly 4 digit characters); and it returns null exactly when the
input is null or has no window of 4 consecutive digits (which subsumes the
empty string). -/
theorem extract_postal_code_spec (loc : Option String) :
    (∀ v, extract_postal_code loc = some v →
      v.data.length = 4 ∧ v.data.all Char.isDigit = true ∧
      ∃ s i, loc = some s ∧ v.data = (s.data.drop i).take 4 ∧ win4 s.data i = true ∧
        ∀ j < i, win4 s.data j = false) ∧
    (extract_postal_code loc = none ↔
      loc = none ∨ ∃ s, loc = some s ∧ ∀ i, win4 s.data i = false) := by
  cases loc with
  | none =>
    refine ⟨fun v hv => by simp [extract_postal_code] at hv, ?_⟩
    simp [extract_postal_code]
  | some s =>
    by_cases hemp : s.data.isEmpty
    · have he : extract_postal_code (some s) = none := by
        simp [extract_postal_code, hemp]
      have hnil : s.data = [] := List.isEmpty_iff.1 hemp
      constructor
      · intro v hv
        rw [he] at hv
        cases hv
      · rw [he]
        constructor
        · intro _
          exact Or.inr ⟨s, rfl, fun i => win4_false_of_short _ i (by rw [hnil]; simp)⟩
        · intro _
          rfl
    · have he : extract_postal_code (some s) = (find4 s.data).map String.mk := by
        simp [extract_postal_code, hemp]
      constructor
      · intro v hv
        rw [he] at hv
        obtain ⟨w, hw, rfl⟩ := Option.map_eq_some'.1 hv
        obtain ⟨i, hwi, hwin, hmin⟩ := (find4_spec s.data).1 w hw
        have hdata : (String.mk w).data = w := rfl
        have hwin' := hwin
        simp only [win4, Bool.and_eq_true, decide_eq_true_eq] at hwin'
        obtain ⟨hle, hall⟩ := hwin'
        refine ⟨?_, ?_, s, i, rfl, ?_, hwin, hmin⟩
        · rw [hdata, hwi, List.length_take, List.length_drop]
          omega
        · rw [hdata, hwi]
          exact hall
        · rw [hdata, hwi]
      · rw [he]
        constructor
        · intro h
          refine Or.inr ⟨s, rfl, ?_⟩
          exact (find4_spec s.data).2.1 (Option.map_eq_none'.1 h)
        · intro h
          rcases h with h | ⟨s', hs', hall⟩
          · cases h
          · cases hs'
            rw [Option.map_eq_none']
            exact (find4_spec s.data).2.2 hall

/-- Witness for C10 at the concrete location "Musterweg 1, 8000 Zuerich",
whose extracted postal code is "8000". -/
theorem extract_postal_code_spec_witness :
    ("8000" : String).data.length = 4 ∧ ("8000" : String).data.all Char.isDigit = true ∧
    ∃ s i, (some "Musterweg 1, 8000 Zuerich" : Option String) = some s ∧
      ("8000" : String).data = (s.data.drop i).take 4 ∧ win4 s.data i = true ∧
      ∀ j < i, win4 s.data j = false :=
  (extract_postal_code_spec (some "Musterweg 1, 8000 Zuerich")).1 "8000" (by decide)

/-! ### Claim C9: artifact versioning in object storage
(src/backend/app.py lines 60–73 and src/model/save.py lines 51–64). -/

lemma data_append (s t : String) : (s ++ t).data = s.data ++ t.data := rfl

/-- `name.replace(".pkl", "")`: remove every occurrence, scanning left to
right without overlap. -/
def replacePkl : List Char → List Char
  | '.' :: 'p' :: 'k' :: 'l' :: rest => replacePkl rest
  | c :: rest => c :: replacePkl rest
  | [] => []

lemma replacePkl_cons_ne (c : Char) (l : List Char) (h : c ≠ '.') :
    replacePkl (c :: l) = c :: replacePkl l := by
  rw [replacePkl.eq_def]
  split
  · rename_i rest heq
    injection heq with h1 h2
    exact absurd h1 h
  · rename_i c2 rest2 hx heq
    injection heq with h1 h2
    rw [h1, h2]
  · rename_i heq
    exact (List.cons_ne_nil _ _ heq).elim

/-- `int(name.split('-')[-1].replace('.pkl', ''))` (backend/app.py line 68,
save.py line 53); `none` where Python's `int()` would raise, so the theorems
quantify over names whose suffix parses. -/
def suffixOf (name : String) : Option Nat :=
  pyInt? (replacePkl ((splitDash name.data).getLastD []))

/-- `name.endswith(".pkl")`. -/
def endsPkl (name : String) : Bool :=
  startswith ['l', 'k', 'p', '.'] name.data.reverse

/-- backend/app.py line 61: the blobs whose names end in ".pkl". -/
def filtered_blobs (blobs : List String) : List String := blobs.filter endsPkl

/-- One comparison step of `sorted(filtered_blobs, key=suffix)[-1]`: keeping
the later blob on ties reproduces the last element of a stable sort by key. -/
def latestStep (acc : Option String) (b : String) : Option String :=
  match acc with
  | none => some b
  | some a => if (suffixOf a).getD 0 ≤ (suffixOf b).getD 0 then some b else some a

/-- The blob the server downloads and loads at startup (backend/app.py lines
66–75); `none` models the `FileNotFoundError` raised when no ".pkl" blob
exists. -/
def latest_blob (blobs : List String) : Option String :=
  (filtered_blobs blobs).foldl latestStep none

/-- save.py lines 51–56: the integer suffixes of the blobs named
`immoscout-model*…*.pkl`. -/
def existing_versions (blobs : List String) : List Nat :=
  (blobs.filter (fun b => startswith "immoscout-model".data b.data && endsPkl b)).filterMap
    suffixOf

/-- save.py line 57: `max(existing_versions, default=0) + 1`. -/
def new_version (blobs : List String) : Nat :=
  (existing_versions blobs).foldl max 0 + 1

/-- Decimal digit string of `n`, as Python's `str` renders an `int`. -/
def natChars (n : Nat) : List Char :=
  if n < 10 then [Char.ofNat (48 + n)]
  else natChars (n / 10) ++ [Char.ofNat (48 + n % 10)]
decreasing_by exact Nat.div_lt_self (by omega) (by omega)

/-- save.py line 61: `f"immoscout-model-{new_version}.pkl"`. -/
def mkName (v : Nat) : String :=
  "immoscout-model-" ++ String.mk (natChars v) ++ ".pkl"

lemma digitChar_isDigit (d : Nat) (h : d < 10) : (Char.ofNat (48 + d)).isDigit = true := by
  interval_cases d <;> decide

lemma digitChar_val (d : Nat) (h : d < 10) : (Char.ofNat (48 + d)).toNat - 48 = d := by
  interval_cases d <;> decide

lemma natChars_digits (n : Nat) : ∀ c ∈ natChars n, c.isDigit = true := by
  induction n using Nat.strong_induction_on with
  | _ n ih =>
    rw [natChars]
    by_cases h : n < 10
    · rw [if_pos h]
      intro c hc
      simp at hc
      rw [hc]
      exact digitChar_isDigit n h
    · rw [if_neg h]
      intro c hc
      rcases List.mem_append.1 hc with h1 | h1
      · exact ih (n / 10) (Nat.div_lt_self (by omega) (by omega)) c h1
      · simp at h1
        rw [h1]
        exact digitChar_isDigit (n % 10) (Nat.mod_lt _ (by omega))

lemma natChars_ne_nil (n : Nat) : natChars n ≠ [] := by
  rw [natChars]
  by_cases h : n < 10
  · simp [h]
  · simp [h]

lemma natChars_val (n : Nat) : ∀ a : Nat,
    (natChars n).foldl (fun m c => 10 * m + digitVal c) a =
      a * 10 ^ (natChars n).length + n := by
  induction n using Nat.strong_induction_on with
  | _ n ih =>
    intro a
    by_cases h : n < 10
    · rw [natChars, if_pos h]
      simp only [List.foldl_cons, List.foldl_nil, List.length_cons, List.length_nil,
        zero_add, pow_one, digitVal]
      rw [digitChar_val n h]
      omega
    · rw [natChars, if_neg h]
      rw [List.foldl_append, ih (n / 10) (Nat.div_lt_self (by omega) (by omega)) a]
      simp only [List.foldl_cons, List.foldl_nil, digitVal]
      rw [digitChar_val (n % 10) (Nat.mod_lt _ (by omega))]
      rw [List.length_append, List.length_cons, List.length_nil, pow_succ, ← mul_assoc]
      have hmod := Nat.div_add_mod n 10
      set A := a * 10 ^ (natChars (n / 10)).length
      omega

lemma pyInt_natChars (n : Nat) : pyInt? (natChars n) = some n := by
  have h1 : (natChars n).isEmpty = false := by
    rcases he : natChars n with _ | ⟨c, t⟩
    · exact absurd he (natChars_ne_nil n)
    · rfl
  rw [pyInt?, if_pos, natChars_val n 0]
  · simp
  · simp only [Bool.and_eq_true, Bool.not_eq_true', List.all_eq_true]
    exact ⟨h1, natChars_digits n⟩

lemma replacePkl_digits (l : List Char) (h : ∀ c ∈ l, c.isDigit = true) :
    replacePkl (l ++ ['.', 'p', 'k', 'l']) = l := by
  induction l with
  | nil => decide
  | cons c t ih =>
    have hc : c ≠ '.' := by
      intro he
      have := h c (List.mem_cons_self _ _)
      rw [he] at this
      cases this
    rw [List.cons_append, replacePkl_cons_ne c _ hc,
      ih (fun x hx => h x (List.mem_cons_of_mem _ hx))]

lemma splitDash_no_dash (l : List Char) (h : ∀ c ∈ l, c ≠ '-') : splitDash l = [l] := by
  induction l with
  | nil => rfl
  | cons c rest ih =>
    simp only [splitDash]
    rw [if_neg (h c (List.mem_cons_self _ _)), ih (fun x hx => h x (List.mem_cons_of_mem _ hx))]

lemma splitDash_pre (tail : List Char) (h : ∀ c ∈ tail, c ≠ '-') :
    splitDash ("immoscout-model-".data ++ tail) =
      ["immoscout".data, "model".data, tail] := by
  simp [splitDash, splitDash_no_dash tail h]

lemma mkName_data (v : Nat) :
    (mkName v).data = "immoscout-model-".data ++ (natChars v ++ ['.', 'p', 'k', 'l']) := by
  show ("immoscout-model-" ++ String.mk (natChars v) ++ ".pkl").data = _
  rw [data_append, data_append, List.append_assoc]

lemma suffixOf_mkName (v : Nat) : suffixOf (mkName v) = some v := by
  have hnod : ∀ c ∈ natChars v ++ ['.', 'p', 'k', 'l'], c ≠ '-' := by
    intro c hc
    rcases List.mem_append.1 hc with h1 | h1
    · intro he
      have := natChars_digits v c h1
      rw [he] at this
      cases this
    · simp at h1
      rcases h1 with rfl | rfl | rfl | rfl <;> decide
  rw [suffixOf, mkName_data, splitDash_pre _ hnod]
  show pyInt? (replacePkl (natChars v ++ ['.', 'p', 'k', 'l'])) = some v
  rw [replacePkl_digits (natChars v) (natChars_digits v)]
  exact pyInt_natChars v

lemma endsPkl_append (l : List Char) :
    startswith ['l', 'k', 'p', '.'] (l ++ ['.', 'p', 'k', 'l']).reverse = true := by
  rw [List.reverse_append]
  show startswith ['l', 'k', 'p', '.'] (['l', 'k', 'p', '.'] ++ l.reverse) = true
  exact startswith_self_append _ _

lemma mkName_pred (v : Nat) :
    (startswith "immoscout-model".data (mkName v).data && endsPkl (mkName v)) = true := by
  have h1 : startswith "immoscout-model".data (mkName v).data = true := by
    rw [mkName_data]
    rw [show "immoscout-model-".data ++ (natChars v ++ ['.', 'p', 'k', 'l']) =
      "immoscout-model".data ++ ('-' :: (natChars v ++ ['.', 'p', 'k', 'l'])) from rfl]
    exact startswith_self_append _ _
  have h2 : endsPkl (mkName v) = true := by
    rw [endsPkl, mkName_data, ← List.append_assoc]
    exact endsPkl_append _
  rw [h1, h2]
  rfl

lemma foldl_max_spec (l : List Nat) : ∀ a : Nat,
    a ≤ l.foldl max a ∧ ∀ v ∈ l, v ≤ l.foldl max a := by
  induction l with
  | nil => exact fun a => ⟨le_refl _, by simp⟩
  | cons x t ih =>
    intro a
    obtain ⟨h1, h2⟩ := ih (max a x)
    refine ⟨le_trans (le_max_left a x) h1, ?_⟩
    intro v hv
    rcases List.mem_cons.1 hv with rfl | hvt
    · exact le_trans (le_max_right a v) h1
    · exact h2 v hvt

lemma existing_versions_append (blobs : List String) (m : Nat) :
    existing_versions (blobs ++ [mkName m]) = existing_versions blobs ++ [m] := by
  rw [existing_versions, existing_versions, List.filter_append, List.filterMap_append]
  congr 1
  rw [show List.filter (fun b => startswith "immoscout-model".data b.data && endsPkl b)
      [mkName m] = [mkName m] from by simp [List.filter_cons, mkName_pred m]]
  simp [List.filterMap, suffixOf_mkName m]

lemma new_version_increment (blobs : List String) :
    new_version (blobs ++ [mkName (new_version blobs)]) = new_version blobs + 1 := by
  rw [new_version, existing_versions_append, List.foldl_append]
  simp only [List.foldl_cons, List.foldl_nil]
  have hE : new_version blobs = (existing_versions blobs).foldl max 0 + 1 := rfl
  rw [hE, max_eq_right (Nat.le_succ _)]

lemma latestStep_foldl_spec (l : List String) : ∀ a : String,
    ∃ r, l.foldl latestStep (some a) = some r ∧ (r = a ∨ r ∈ l) ∧
      (suffixOf a).getD 0 ≤ (suffixOf r).getD 0 ∧
      ∀ x ∈ l, (suffixOf x).getD 0 ≤ (suffixOf r).getD 0 := by
  induction l with
  | nil => exact fun a => ⟨a, rfl, Or.inl rfl, le_refl _, by simp⟩
  | cons c t ih =>
    intro a
    by_cases h : (suffixOf a).getD 0 ≤ (suffixOf c).getD 0
    · obtain ⟨r, h1, h2, h3, h4⟩ := ih c
      refine ⟨r, ?_, ?_, le_trans h h3, ?_⟩
      · rw [List.foldl_cons, show latestStep (some a) c = some c from by simp [latestStep, h]]
        exact h1
      · rcases h2 with rfl | hr
        · exact Or.inr (List.mem_cons_self _ _)
        · exact Or.inr (List.mem_cons_of_mem _ hr)
      · intro x hx
        rcases List.mem_cons.1 hx with rfl | hxt
        · exact h3
        · exact h4 x hxt
    · obtain ⟨r, h1, h2, h3, h4⟩ := ih a
      refine ⟨r, ?_, ?_, h3, ?_⟩
      · rw [List.foldl_cons, show latestStep (some a) c = some a from by simp [latestStep, h]]
        exact h1
      · rcases h2 with rfl | hr
        · exact Or.inl rfl
        · exact Or.inr (List.mem_cons_of_mem _ hr)
      · intro x hx
        rcases List.mem_cons.1 hx with rfl | hxt
        · exact le_trans (le_of_not_le h) h3
        · exact h4 x hxt

/-- C9: the blob the server loads at startup is a ".pkl" blob of maximal
integer suffix among all ".pkl" blobs; the uploader names the new artifact
with suffix one plus the maximum existing version, strictly above every
existing version, and an immediately following upload run increments the
suffix again — successive uploads carry strictly increasing suffixes. -/
theorem artifact_versioning (blobs : List String) :
    (∀ b, latest_blob blobs = some b →
      b ∈ filtered_blobs blobs ∧
      ∀ x ∈ filtered_blobs blobs, (suffixOf x).getD 0 ≤ (suffixOf b).getD 0) ∧
    (∀ v ∈ existing_versions blobs, v < new_version blobs) ∧
    new_version (blobs ++ [mkName (new_version blobs)]) = new_version blobs + 1 := by
  refine ⟨?_, ?_, new_version_increment blobs⟩
  · intro b hb
    rw [latest_blob] at hb
    rcases hfil : filtered_blobs blobs with _ | ⟨c, t⟩
    · rw [hfil] at hb
      cases hb
    · rw [hfil, List.foldl_cons, show latestStep none c = some c from rfl] at hb
      obtain ⟨r, h1, h2, h3, h4⟩ := latestStep_foldl_spec t c
      rw [h1] at hb
      cases hb
      constructor
      · rcases h2 with rfl | hr
        · exact List.mem_cons_self _ _
        · exact List.mem_cons_of_mem _ hr
      · intro x hx
        rcases List.mem_cons.1 hx with rfl | hxt
        · exact h3
        · exact h4 x hxt
  · intro v hv
    have := (foldl_max_spec (existing_versions blobs) 0).2 v hv
    rw [new_version]
    omega

/-- Concrete blob listing used as the C9 witness. -/
def blobs0 : List String :=
  ["immoscout-model-1.pkl", "notes.txt", "immoscout-model-3.pkl", "immoscout-model-2.pkl"]

/-- Witness for C9: on `blobs0` the server picks the suffix-3 artifact, and
the uploader's new version exceeds versions 1, 2, 3 and increments again on
the following run. -/
theorem artifact_versioning_witness :
    ("immoscout-model-3.pkl" ∈ filtered_blobs blobs0 ∧
      ∀ x ∈ filtered_blobs blobs0,
        (suffixOf x).getD 0 ≤ (suffixOf "immoscout-model-3.pkl").getD 0) ∧
    (∀ v ∈ existing_versions blobs0, v < new_version blobs0) ∧
    new_version (blobs0 ++ [mkName (new_version blobs0)]) = new_version blobs0 + 1 :=
  ⟨(artifact_versioning blobs0).1 "immoscout-model-3.pkl" (by decide),
   (artifact_versioning blobs0).2⟩
